import Mathlib

/-!
Verification development for the live-streaming platform repository
(auth.js token/URL-concealment module and streamProxy.js manifest
rewriter / segment cache).  JavaScript code is shallowly embedded:
JS strings become Lean String/List Char, byte buffers become List Nat
(each element < 256), JS Map objects become insertion-ordered
association lists with Map.set update-in-place semantics, Date values
become millisecond Nat timestamps, and randomness (uuids, nonces) is
passed in as explicit arguments.
-/

namespace StreamPlatform

/-! ### Byte and hex utilities (Node Buffer hex codec model)

Node's Buffer.from(str, 'hex') parses two hex characters per byte and
stops silently at the first character that is not a hex digit (the
partial trailing byte is dropped).  buf.toString('hex') emits lowercase
hex digits. -/

/-- Lowercase hex digit for a nibble, as produced by Buffer.toString with
the hex encoding. -/
def hexDigitChar (n : Nat) : Char :=
  if n < 10 then Char.ofNat (48 + n) else Char.ofNat (87 + n)

/-- Value of a hex digit character; none when the character is not a hex
digit. -/
def hexCharVal (c : Char) : Option Nat :=
  if 48 ≤ c.toNat ∧ c.toNat ≤ 57 then some (c.toNat - 48)
  else if 97 ≤ c.toNat ∧ c.toNat ≤ 102 then some (c.toNat - 87)
  else if 65 ≤ c.toNat ∧ c.toNat ≤ 70 then some (c.toNat - 55)
  else none

/-- Hex encoding of one byte (two lowercase hex characters). -/
def hexEncodeByte (b : Nat) : List Char :=
  [hexDigitChar (b / 16 % 16), hexDigitChar (b % 16)]

/-- Hex encoding of a byte buffer, as Buffer.toString('hex'). -/
def hexEncodeBytes : List Nat → List Char
  | [] => []
  | b :: rest => hexEncodeByte b ++ hexEncodeBytes rest

/-- Hex decoding of a character list, with Node Buffer.from(s,'hex')
truncation semantics: decoding stops at the first byte whose two
characters are not both hex digits. -/
def hexDecodePairs : List Char → List Nat
  | c1 :: c2 :: rest =>
    match hexCharVal c1, hexCharVal c2 with
    | some a, some b => (16 * a + b) :: hexDecodePairs rest
    | _, _ => []
  | _ => []

/-! ### UrlCipher: model of encryptUrl / decryptUrl (auth.js lines 175-219)

The repository uses Node crypto's aes-256-gcm with a key derived by
scrypt from the configured secret, a fresh 16-byte random IV per call,
and the ciphertext string format ivHex:tagHex:payloadHex.  The AES-GCM
primitive itself is external library code; it is modelled here as an
idealized authenticated stream cipher: a keystream XOR (so decryption
with the same key and IV inverts encryption) together with a
deterministic authentication tag over the ciphertext (so decryption
fails whenever the received tag differs from the tag of the received
payload).  The derived 32-byte key is modelled as a Nat parameter and
the random IV as an explicit byte-list argument. -/

/-- Fold an IV byte buffer into a single Nat (base-256 value) for use in
the keystream and tag models. -/
def ivFold (iv : List Nat) : Nat :=
  iv.foldl (fun a b => a * 256 + b) 0

/-- Keystream byte i of the modelled cipher for a given key and folded
IV.  Any concrete byte-valued function works for the model; proofs rely
only on XOR involutivity and on the byte bound. -/
def ksByte (key ivh i : Nat) : Nat :=
  (key * 257 + ivh * 131 + i * 31 + 7) % 256

/-- XOR a byte buffer against the keystream starting at index i.
Applying it twice with the same key and IV restores the input. -/
def xorStream (key ivh : Nat) : Nat → List Nat → List Nat
  | _, [] => []
  | i, b :: rest => (b ^^^ ksByte key ivh i) :: xorStream key ivh (i + 1) rest

/-- Sum of the bytes of a buffer (used by the modelled GCM tag). -/
def sumBytes : List Nat → Nat
  | [] => 0
  | b :: rest => b + sumBytes rest

/-- Modelled GCM authentication tag over a ciphertext: a length byte and
a keyed checksum byte.  Deterministic in (key, iv, ciphertext), so the
authenticity check of decryption is tag equality. -/
def gcmTag (key ivh : Nat) (ct : List Nat) : List Nat :=
  [ct.length % 256, (sumBytes ct + key + ivh) % 256]

/-- Assemble the delimited ciphertext string ivHex:tagHex:payloadHex
exactly as encryptUrl returns it. -/
def mkCipherString (iv tag ct : List Nat) : String :=
  String.mk (hexEncodeBytes iv ++ ':' :: (hexEncodeBytes tag ++ ':' :: hexEncodeBytes ct))

/-- encryptUrl (auth.js lines 175-192): encrypt the URL bytes with the
modelled aes-256-gcm under the derived key and the fresh random iv, and
return iv:tag:payload in hex. -/
def encryptUrl (key : Nat) (iv : List Nat) (url : List Nat) : String :=
  mkCipherString iv (gcmTag key (ivFold iv) (xorStream key (ivFold iv) 0 url))
    (xorStream key (ivFold iv) 0 url)

/-- The error message decryptUrl throws on any failure (tag mismatch,
malformed format, decode failure). -/
def tamperError : String := "Failed to decrypt URL - possible tampering"

/-- JS String.prototype.split on the colon character. -/
def splitOnColon : List Char → List (List Char)
  | [] => [[]]
  | c :: rest =>
    if c = ':' then [] :: splitOnColon rest
    else
      match splitOnColon rest with
      | [] => [[c]]
      | p :: ps => (c :: p) :: ps

/-- decryptUrl (auth.js lines 199-219): split the string on colons
(destructuring takes the first three parts; fewer than three parts makes
the decode throw, caught as the tamper error), hex-decode each part,
verify the authentication tag, and on success return the decrypted
bytes.  Every failure path returns the single tamper error message. -/
def decryptUrl (key : Nat) (encrypted : String) : Except String (List Nat) :=
  match splitOnColon encrypted.data with
  | ivHex :: tagHex :: encHex :: _ =>
    if hexDecodePairs tagHex
        = gcmTag key (ivFold (hexDecodePairs ivHex)) (hexDecodePairs encHex) then
      Except.ok (xorStream key (ivFold (hexDecodePairs ivHex)) 0 (hexDecodePairs encHex))
    else Except.error tamperError
  | _ => Except.error tamperError

/-- UTF-8 bytes of one character (standard 1-4 byte encoding). -/
def utf8Bytes (c : Char) : List Nat :=
  let n := c.toNat
  if n < 128 then [n]
  else if n < 2048 then [192 + n / 64, 128 + n % 64]
  else if n < 65536 then [224 + n / 4096, 128 + n / 64 % 64, 128 + n % 64]
  else [240 + n / 262144, 128 + n / 4096 % 64, 128 + n / 64 % 64, 128 + n % 64]

/-- UTF-8 byte buffer of a string, as Node obtains when encrypting a URL
string. -/
def strBytes (s : String) : List Nat :=
  s.data.foldr (fun c acc => utf8Bytes c ++ acc) []

/-! ### Cipher lemmas -/

/-- Hex digit characters are never the colon delimiter. -/
theorem hexDigitChar_ne_colon (n : Nat) (h : n < 16) : hexDigitChar n ≠ ':' := by
  have hall : ∀ m < 16, hexDigitChar m ≠ ':' := by decide
  exact hall n h

/-- A hex-encoded buffer contains no colon, so the delimited ciphertext
format is unambiguous. -/
theorem colon_not_mem_hexEncodeBytes (bs : List Nat) : ':' ∉ hexEncodeBytes bs := by
  induction bs with
  | nil => simp [hexEncodeBytes]
  | cons b r ih =>
    simp only [hexEncodeBytes, hexEncodeByte, List.cons_append, List.nil_append,
      List.mem_cons, not_or]
    exact ⟨fun he => hexDigitChar_ne_colon _ (Nat.mod_lt _ (by norm_num)) he.symm,
      fun he => hexDigitChar_ne_colon _ (Nat.mod_lt _ (by norm_num)) he.symm, ih⟩

/-- Splitting a colon-free character list yields that single part. -/
theorem splitOnColon_of_not_mem (c : List Char) (h : ':' ∉ c) : splitOnColon c = [c] := by
  induction c with
  | nil => rfl
  | cons x xs ih =>
    have hx : ¬ x = ':' := fun he => h (by simp [he])
    rw [splitOnColon, if_neg hx, ih (fun hm => h (List.mem_cons_of_mem _ hm))]

/-- Splitting peels off a leading colon-free part. -/
theorem splitOnColon_append (a t : List Char) (h : ':' ∉ a) :
    splitOnColon (a ++ ':' :: t) = a :: splitOnColon t := by
  induction a with
  | nil => simp [splitOnColon]
  | cons x xs ih =>
    have hx : ¬ x = ':' := fun he => h (by simp [he])
    rw [List.cons_append, splitOnColon, if_neg hx,
      ih (fun hm => h (List.mem_cons_of_mem _ hm))]

/-- Decoding a hex digit produced by encoding recovers the nibble. -/
theorem hexCharVal_hexDigitChar (n : Nat) (h : n < 16) :
    hexCharVal (hexDigitChar n) = some n := by
  have hall : ∀ m < 16, hexCharVal (hexDigitChar m) = some m := by decide
  exact hall n h

/-- Hex decoding inverts hex encoding on byte buffers. -/
theorem hexDecodePairs_hexEncodeBytes (bs : List Nat) (h : ∀ b ∈ bs, b < 256) :
    hexDecodePairs (hexEncodeBytes bs) = bs := by
  induction bs with
  | nil => rfl
  | cons b r ih =>
    have hb : b < 256 := h b (List.mem_cons_self _ _)
    rw [hexEncodeBytes, hexEncodeByte, List.cons_append, List.cons_append,
      List.nil_append, hexDecodePairs,
      hexCharVal_hexDigitChar _ (Nat.mod_lt _ (by norm_num)),
      hexCharVal_hexDigitChar _ (Nat.mod_lt _ (by norm_num))]
    show (16 * (b / 16 % 16) + b % 16) :: hexDecodePairs (hexEncodeBytes r) = b :: r
    rw [ih (fun x hx => h x (List.mem_cons_of_mem _ hx))]
    congr 1
    omega

/-- The keystream XOR is an involution: decrypting with the same key and
IV restores the plaintext. -/
theorem xorStream_xorStream (key ivh : Nat) (i : Nat) (l : List Nat) :
    xorStream key ivh i (xorStream key ivh i l) = l := by
  induction l generalizing i with
  | nil => rfl
  | cons b r ih =>
    rw [xorStream, xorStream, Nat.xor_assoc, Nat.xor_self, Nat.xor_zero, ih]

/-- The keystream XOR maps byte buffers to byte buffers. -/
theorem xorStream_lt (key ivh : Nat) (i : Nat) (l : List Nat) (h : ∀ b ∈ l, b < 256) :
    ∀ b ∈ xorStream key ivh i l, b < 256 := by
  induction l generalizing i with
  | nil => intro b hb; simp [xorStream] at hb
  | cons x r ih =>
    intro b hb
    rw [xorStream] at hb
    rcases List.mem_cons.mp hb with hb | hb
    · subst hb
      have hx : x < 256 := h x (List.mem_cons_self _ _)
      have hk : ksByte key ivh i < 256 := Nat.mod_lt _ (by norm_num)
      have h256 : (256 : Nat) = 2 ^ 8 := by norm_num
      rw [h256] at hx hk ⊢
      exact Nat.xor_lt_two_pow hx hk
    · exact ih (i + 1) (fun y hy => h y (List.mem_cons_of_mem _ hy)) b hb

/-- The modelled authentication tag is a byte buffer. -/
theorem gcmTag_lt (key ivh : Nat) (ct : List Nat) : ∀ b ∈ gcmTag key ivh ct, b < 256 := by
  intro b hb
  rw [gcmTag] at hb
  rcases List.mem_cons.mp hb with hb | hb
  · omega
  · rcases List.mem_cons.mp hb with hb | hb
    · omega
    · simp at hb

/-- Decryption of a well-formed delimited triple reduces to the tag
check over the decoded portions. -/
theorem decryptUrl_mkCipherString (key : Nat) (iv tag ct : List Nat)
    (hiv : ∀ b ∈ iv, b < 256) (htag : ∀ b ∈ tag, b < 256) (hct : ∀ b ∈ ct, b < 256) :
    decryptUrl key (mkCipherString iv tag ct) =
      if tag = gcmTag key (ivFold iv) ct then Except.ok (xorStream key (ivFold iv) 0 ct)
      else Except.error tamperError := by
  rw [decryptUrl]
  rw [show (mkCipherString iv tag ct).data
      = hexEncodeBytes iv ++ ':' :: (hexEncodeBytes tag ++ ':' :: hexEncodeBytes ct)
    from rfl]
  rw [splitOnColon_append _ _ (colon_not_mem_hexEncodeBytes iv),
    splitOnColon_append _ _ (colon_not_mem_hexEncodeBytes tag),
    splitOnColon_of_not_mem _ (colon_not_mem_hexEncodeBytes ct)]
  show (if hexDecodePairs (hexEncodeBytes tag)
        = gcmTag key (ivFold (hexDecodePairs (hexEncodeBytes iv)))
            (hexDecodePairs (hexEncodeBytes ct)) then
      Except.ok (xorStream key (ivFold (hexDecodePairs (hexEncodeBytes iv))) 0
        (hexDecodePairs (hexEncodeBytes ct)))
    else Except.error tamperError) = _
  rw [hexDecodePairs_hexEncodeBytes _ hiv, hexDecodePairs_hexEncodeBytes _ htag,
    hexDecodePairs_hexEncodeBytes _ hct]

/-- Summing respects a single-position update: the new sum plus the old
byte equals the old sum plus the new byte. -/
theorem sumBytes_set (l : List Nat) (i : Nat) (b : Nat) (h : i < l.length) :
    sumBytes (l.set i b) + l.get ⟨i, h⟩ = sumBytes l + b := by
  induction l generalizing i with
  | nil => simp at h
  | cons x xs ih =>
    cases i with
    | zero => simp [sumBytes]; omega
    | succ j =>
      simp only [List.set, sumBytes, List.get]
      have := ih j (by simpa using h)
      omega

/-- Updating a list at a position with a different value changes it. -/
theorem set_ne_self (l : List Nat) (i : Nat) (b : Nat) (h : i < l.length)
    (hne : b ≠ l.get ⟨i, h⟩) : l.set i b ≠ l := by
  intro he
  have h1 : (l.set i b)[i]? = some b := List.getElem?_set_self (by simpa using h)
  rw [he, List.getElem?_eq_getElem h] at h1
  exact hne (by simpa [List.get_eq_getElem] using h1.symm)

/-- Decryption inverts encryption under the same key for any nonce and
any URL byte buffer. -/
theorem decryptUrl_encryptUrl (key : Nat) (iv url : List Nat)
    (hurl : ∀ b ∈ url, b < 256) (hiv : ∀ b ∈ iv, b < 256) :
    decryptUrl key (encryptUrl key iv url) = Except.ok url := by
  rw [encryptUrl,
    decryptUrl_mkCipherString key iv _ _ hiv (gcmTag_lt _ _ _) (xorStream_lt _ _ 0 url hurl),
    if_pos rfl, xorStream_xorStream]

/-- C2.  Round-trip of the URL cipher: for every URL byte buffer and
every fresh random nonce drawn by the encryption, decryptUrl applied to
the ciphertext produced by encryptUrl returns exactly the original URL
bytes (auth.js lines 175-219). -/
theorem claim_C2_conceal_reveal_roundtrip (key : Nat) (iv url : List Nat)
    (hurl : ∀ b ∈ url, b < 256) (hiv : ∀ b ∈ iv, b < 256) :
    decryptUrl key (encryptUrl key iv url) = Except.ok url :=
  decryptUrl_encryptUrl key iv url hurl hiv

/-- Witness for C2 at a concrete key, nonce, and URL. -/
theorem claim_C2_conceal_reveal_roundtrip_witness :
    decryptUrl 5 (encryptUrl 5 [1, 2] [104, 105]) = Except.ok [104, 105] :=
  claim_C2_conceal_reveal_roundtrip 5 [1, 2] [104, 105] (by decide) (by decide)

/-- Every UTF-8 byte of a string is below 256. -/
theorem utf8Bytes_lt (c : Char) : ∀ b ∈ utf8Bytes c, b < 256 := by
  intro b hb
  rw [utf8Bytes] at hb
  have hc := c.toNat
  by_cases h1 : c.toNat < 128
  · rw [if_pos h1] at hb
    simp at hb
    omega
  · rw [if_neg h1] at hb
    by_cases h2 : c.toNat < 2048
    · rw [if_pos h2] at hb
      simp at hb
      rcases hb with hb | hb <;> omega
    · rw [if_neg h2] at hb
      by_cases h3 : c.toNat < 65536
      · rw [if_pos h3] at hb
        simp at hb
        rcases hb with hb | hb | hb <;> omega
      · rw [if_neg h3] at hb
        have h4 : c.toNat < 1114112 := by
          have hv := c.valid
          unfold UInt32.isValidChar Nat.isValidChar at hv
          rcases hv with hv | ⟨hv1, hv2⟩
          · have : c.val.toNat < 55296 := by exact_mod_cast hv
            unfold Char.toNat
            omega
          · have : c.val.toNat < 1114112 := by exact_mod_cast hv2
            unfold Char.toNat
            omega
        simp at hb
        rcases hb with hb | hb | hb | hb <;> omega

/-- Every byte of a string's UTF-8 buffer is below 256. -/
theorem charsBytes_aux_lt (cs : List Char) :
    ∀ b ∈ cs.foldr (fun c acc => utf8Bytes c ++ acc) [], b < 256 := by
  induction cs with
  | nil => intro b hb; simp at hb
  | cons c rest ih =>
    intro b hb
    simp only [List.foldr_cons, List.mem_append] at hb
    rcases hb with hb | hb
    · exact utf8Bytes_lt c b hb
    · exact ih b hb

/-- C3.  Tamper detection: for every ciphertext produced by encryptUrl
(the delimited triple mkCipherString iv tag ct with tag and ct as
computed by encryptUrl) and every single-byte mutation of the
authentication-tag portion or of the encrypted-payload portion,
decryptUrl fails with the tamper error and never returns a decrypted
URL (auth.js lines 199-219). -/
theorem claim_C3_tamper_detection (key : Nat) (iv url : List Nat) (i b' : Nat)
    (hurl : ∀ b ∈ url, b < 256) (hiv : ∀ b ∈ iv, b < 256) (hb : b' < 256) :
    (∀ h : i < (gcmTag key (ivFold iv) (xorStream key (ivFold iv) 0 url)).length,
      b' ≠ (gcmTag key (ivFold iv) (xorStream key (ivFold iv) 0 url)).get ⟨i, h⟩ →
      decryptUrl key (mkCipherString iv
          ((gcmTag key (ivFold iv) (xorStream key (ivFold iv) 0 url)).set i b')
          (xorStream key (ivFold iv) 0 url))
        = Except.error tamperError)
    ∧ (∀ h : i < (xorStream key (ivFold iv) 0 url).length,
      b' ≠ (xorStream key (ivFold iv) 0 url).get ⟨i, h⟩ →
      decryptUrl key (mkCipherString iv
          (gcmTag key (ivFold iv) (xorStream key (ivFold iv) 0 url))
          ((xorStream key (ivFold iv) 0 url).set i b'))
        = Except.error tamperError) := by
  have hct : ∀ b ∈ xorStream key (ivFold iv) 0 url, b < 256 := xorStream_lt _ _ 0 url hurl
  have htag : ∀ b ∈ gcmTag key (ivFold iv) (xorStream key (ivFold iv) 0 url), b < 256 :=
    gcmTag_lt _ _ _
  constructor
  · intro h hne
    have htag' : ∀ b ∈ (gcmTag key (ivFold iv) (xorStream key (ivFold iv) 0 url)).set i b',
        b < 256 := by
      intro x hx
      rcases List.mem_or_eq_of_mem_set hx with hx | hx
      · exact htag x hx
      · omega
    rw [decryptUrl_mkCipherString key iv _ _ hiv htag' hct,
      if_neg (set_ne_self _ i b' h hne)]
  · intro h hne
    have hct' : ∀ b ∈ (xorStream key (ivFold iv) 0 url).set i b', b < 256 := by
      intro x hx
      rcases List.mem_or_eq_of_mem_set hx with hx | hx
      · exact hct x hx
      · omega
    rw [decryptUrl_mkCipherString key iv _ _ hiv htag hct']
    rw [if_neg ?hcond]
    case hcond =>
      intro hcontra
      rw [gcmTag, gcmTag, List.length_set] at hcontra
      have hsum := sumBytes_set (xorStream key (ivFold iv) 0 url) i b' h
      have ha : (xorStream key (ivFold iv) 0 url).get ⟨i, h⟩ < 256 :=
        hct _ (List.get_mem _ _ h)
      have h2 : (sumBytes (xorStream key (ivFold iv) 0 url) + key + ivFold iv) % 256
          = (sumBytes ((xorStream key (ivFold iv) 0 url).set i b') + key + ivFold iv) % 256 := by
        exact (List.cons.inj (List.cons.inj hcontra).2).1
      omega

/-- Witness for C3: a concrete tag-byte mutation and a concrete
payload-byte mutation are both rejected as tampering. -/
theorem claim_C3_tamper_detection_witness :
    decryptUrl 3 (mkCipherString [7]
        ((gcmTag 3 (ivFold [7]) (xorStream 3 (ivFold [7]) 0 [65, 66])).set 1 0)
        (xorStream 3 (ivFold [7]) 0 [65, 66]))
      = Except.error tamperError
    ∧ decryptUrl 3 (mkCipherString [7]
        (gcmTag 3 (ivFold [7]) (xorStream 3 (ivFold [7]) 0 [65, 66]))
        ((xorStream 3 (ivFold [7]) 0 [65, 66]).set 0 0))
      = Except.error tamperError :=
  ⟨(claim_C3_tamper_detection 3 [7] [65, 66] 1 0 (by decide) (by decide) (by decide)).1
      (by decide) (by decide),
    (claim_C3_tamper_detection 3 [7] [65, 66] 0 0 (by decide) (by decide) (by decide)).2
      (by decide) (by decide)⟩

/-! ### JS Map model

A JavaScript Map is an insertion-ordered collection: set on a fresh key
appends, set on an existing key updates the value in place keeping the
original position, keys().next() yields the first (oldest-inserted)
entry. -/

/-- Map.get: first binding of the key, if any. -/
def jsMapGet {α : Type} : List (String × α) → String → Option α
  | [], _ => none
  | (k, v) :: rest, key => if k = key then some v else jsMapGet rest key

/-- Map.set: update in place when the key exists, append otherwise. -/
def jsMapSet {α : Type} : List (String × α) → String → α → List (String × α)
  | [], key, v => [(key, v)]
  | (k, w) :: rest, key, v =>
    if k = key then (k, v) :: rest else (k, w) :: jsMapSet rest key v

/-- Map.delete: remove the binding of the key, if present. -/
def jsMapDelete {α : Type} : List (String × α) → String → List (String × α)
  | [], _ => []
  | (k, w) :: rest, key =>
    if k = key then rest else (k, w) :: jsMapDelete rest key

/-! ### SegmentCache: model of cacheSegment (streamProxy.js lines 302-317)

The cache is the module-level segmentCache Map plus the running
currentCacheSize counter (a JS number, modelled as Int).  cacheSegment
evicts oldest-inserted entries while the counter plus the incoming
payload length exceeds CACHE_MAX_SIZE and the map is non-empty, then
stores the entry and adds the payload length to the counter. -/

/-- One cached segment: payload bytes and insertion timestamp. -/
structure CacheEntry where
  data : List Nat
  timestamp : Nat
deriving DecidableEq, Repr

/-- The configured cache ceiling, 50MB (streamProxy.js line 23). -/
def CACHE_MAX_SIZE : Nat := 50 * 1024 * 1024

/-- The segment cache Map together with the running byte counter. -/
structure SegmentCacheState where
  segmentCache : List (String × CacheEntry)
  currentCacheSize : Int
deriving DecidableEq, Repr

/-- The cache state at module load: empty map, zero counter. -/
def emptySegmentCache : SegmentCacheState := ⟨[], 0⟩

/-- The while loop of cacheSegment: evict the oldest entry (subtracting
its exact byte length from the counter) while the counter plus the
incoming length exceeds the ceiling and entries remain. -/
def evictLoop (len : Nat) : List (String × CacheEntry) → Int → List (String × CacheEntry) × Int
  | [], size => ([], size)
  | (k, e) :: rest, size =>
    if (CACHE_MAX_SIZE : Int) < size + len then
      evictLoop len rest (size - e.data.length)
    else ((k, e) :: rest, size)

/-- cacheSegment (streamProxy.js lines 302-317): run the eviction loop,
store the entry under the key, and add the payload length to the
counter. -/
def cacheSegment (st : SegmentCacheState) (key : String) (data : List Nat) (now : Nat) :
    SegmentCacheState :=
  { segmentCache :=
      jsMapSet (evictLoop data.length st.segmentCache st.currentCacheSize).1 key ⟨data, now⟩,
    currentCacheSize :=
      (evictLoop data.length st.segmentCache st.currentCacheSize).2 + data.length }

/-- Total number of payload bytes actually resident in the cache map. -/
def residentBytes : List (String × CacheEntry) → Nat
  | [] => 0
  | (_, e) :: rest => e.data.length + residentBytes rest

/-- Keys of a cache map, in insertion order. -/
def cacheKeys (c : List (String × CacheEntry)) : List String := c.map (fun p => p.1)

/-- Apply a sequence of put operations (key, payload, timestamp). -/
def runPuts : SegmentCacheState → List (String × List Nat × Nat) → SegmentCacheState
  | st, [] => st
  | st, (k, d, t) :: rest => runPuts (cacheSegment st k d t) rest

/-! ### Cache lemmas -/

/-- The eviction loop subtracts from the counter exactly the bytes it
removes from the map, stops only when empty or when the incoming entry
fits under the ceiling, and returns a sub-collection of the entries. -/
theorem evictLoop_spec (len : Nat) (cache : List (String × CacheEntry)) :
    ∀ size : Int,
      (evictLoop len cache size).2
          = size - ((residentBytes cache : Int) - residentBytes (evictLoop len cache size).1)
      ∧ residentBytes (evictLoop len cache size).1 ≤ residentBytes cache
      ∧ ((evictLoop len cache size).1 = [] ∨
          (evictLoop len cache size).2 + len ≤ CACHE_MAX_SIZE)
      ∧ (∀ p ∈ (evictLoop len cache size).1, p ∈ cache) := by
  induction cache with
  | nil =>
    intro size
    refine ⟨by simp [evictLoop], by simp [evictLoop], Or.inl rfl, by simp [evictLoop]⟩
  | cons he rest ih =>
    obtain ⟨k, e⟩ := he
    intro size
    by_cases hc : (CACHE_MAX_SIZE : Int) < size + len
    · rw [evictLoop, if_pos hc]
      obtain ⟨h1, h2, h3, h4⟩ := ih (size - e.data.length)
      refine ⟨?_, ?_, h3, fun p hp => List.mem_cons_of_mem _ (h4 p hp)⟩
      · rw [h1, residentBytes]
        push_cast
        ring
      · rw [residentBytes]
        omega
    · rw [evictLoop, if_neg hc]
      exact ⟨by ring, le_refl _, Or.inr (by omega), fun p hp => hp⟩

/-- Storing under a key grows the resident bytes by at most the payload
length (exactly, unless an existing entry is overwritten). -/
theorem residentBytes_jsMapSet_le (c : List (String × CacheEntry)) (k : String)
    (e : CacheEntry) : residentBytes (jsMapSet c k e) ≤ residentBytes c + e.data.length := by
  induction c with
  | nil => simp [jsMapSet, residentBytes]
  | cons he rest ih =>
    obtain ⟨k', e'⟩ := he
    by_cases hk : k' = k
    · rw [jsMapSet, if_pos hk, residentBytes, residentBytes]
      omega
    · rw [jsMapSet, if_neg hk, residentBytes, residentBytes]
      omega

/-- Storing under a fresh key grows the resident bytes by exactly the
payload length. -/
theorem residentBytes_jsMapSet_fresh (c : List (String × CacheEntry)) (k : String)
    (e : CacheEntry) (h : k ∉ cacheKeys c) :
    residentBytes (jsMapSet c k e) = residentBytes c + e.data.length := by
  induction c with
  | nil => simp [jsMapSet, residentBytes]
  | cons he rest ih =>
    obtain ⟨k', e'⟩ := he
    have hk : ¬ k' = k := by
      intro hcontra
      exact h (by simp [cacheKeys, hcontra])
    rw [jsMapSet, if_neg hk, residentBytes, residentBytes,
      ih (fun hm => h (by simp [cacheKeys] at hm ⊢; exact Or.inr hm))]
    omega

/-- Keys after a store are the stored key or prior keys. -/
theorem cacheKeys_jsMapSet (c : List (String × CacheEntry)) (k : String) (e : CacheEntry) :
    ∀ x ∈ cacheKeys (jsMapSet c k e), x = k ∨ x ∈ cacheKeys c := by
  induction c with
  | nil => simp [jsMapSet, cacheKeys]
  | cons he rest ih =>
    obtain ⟨k', e'⟩ := he
    intro x hx
    by_cases hk : k' = k
    · rw [jsMapSet, if_pos hk] at hx
      simp [cacheKeys] at hx ⊢
      tauto
    · rw [jsMapSet, if_neg hk] at hx
      simp [cacheKeys] at hx ⊢
      rcases hx with hx | hx
      · tauto
      · rcases ih x (by simp [cacheKeys]; exact hx) with h | h
        · tauto
        · simp [cacheKeys] at h; tauto

/-- One cacheSegment call keeps the counter an upper bound on the
resident bytes, with no assumption on the payload size. -/
theorem cacheSegment_counter_ge (st : SegmentCacheState) (k : String) (d : List Nat)
    (t : Nat) (h : (residentBytes st.segmentCache : Int) ≤ st.currentCacheSize) :
    (residentBytes (cacheSegment st k d t).segmentCache : Int)
      ≤ (cacheSegment st k d t).currentCacheSize := by
  obtain ⟨h1, h2, _h3, _h4⟩ := evictLoop_spec d.length st.segmentCache st.currentCacheSize
  have hle := residentBytes_jsMapSet_le
    (evictLoop d.length st.segmentCache st.currentCacheSize).1 k ⟨d, t⟩
  rw [cacheSegment]
  push_cast at h1 h2 hle ⊢
  omega

/-- One cacheSegment call with a payload no larger than the ceiling
keeps the resident bytes within the ceiling (and the counter an upper
bound). -/
theorem cacheSegment_bound (st : SegmentCacheState) (k : String) (d : List Nat) (t : Nat)
    (_hres : residentBytes st.segmentCache ≤ CACHE_MAX_SIZE)
    (hctr : (residentBytes st.segmentCache : Int) ≤ st.currentCacheSize)
    (hd : d.length ≤ CACHE_MAX_SIZE) :
    residentBytes (cacheSegment st k d t).segmentCache ≤ CACHE_MAX_SIZE
    ∧ (residentBytes (cacheSegment st k d t).segmentCache : Int)
        ≤ (cacheSegment st k d t).currentCacheSize := by
  refine ⟨?_, cacheSegment_counter_ge st k d t hctr⟩
  obtain ⟨h1, h2, h3, _h4⟩ := evictLoop_spec d.length st.segmentCache st.currentCacheSize
  have hle := residentBytes_jsMapSet_le
    (evictLoop d.length st.segmentCache st.currentCacheSize).1 k ⟨d, t⟩
  simp only [cacheSegment]
  rcases h3 with h3 | h3
  · rw [h3] at hle ⊢
    rw [residentBytes, show ({ data := d, timestamp := t } : CacheEntry).data = d from rfl]
      at hle
    omega
  · rw [show ({ data := d, timestamp := t } : CacheEntry).data = d from rfl] at hle
    omega

/-- Any put sequence whose payloads each fit the ceiling keeps the cache
within the ceiling and the counter an upper bound. -/
theorem runPuts_bound (puts : List (String × List Nat × Nat)) :
    ∀ st : SegmentCacheState,
      residentBytes st.segmentCache ≤ CACHE_MAX_SIZE →
      (residentBytes st.segmentCache : Int) ≤ st.currentCacheSize →
      (∀ p ∈ puts, p.2.1.length ≤ CACHE_MAX_SIZE) →
      residentBytes (runPuts st puts).segmentCache ≤ CACHE_MAX_SIZE
      ∧ (residentBytes (runPuts st puts).segmentCache : Int)
          ≤ (runPuts st puts).currentCacheSize := by
  induction puts with
  | nil => intro st h1 h2 _; exact ⟨h1, h2⟩
  | cons p rest ih =>
    obtain ⟨k, d, t⟩ := p
    intro st h1 h2 hsz
    have hd : d.length ≤ CACHE_MAX_SIZE := hsz (k, d, t) (List.mem_cons_self _ _)
    obtain ⟨g1, g2⟩ := cacheSegment_bound st k d t h1 h2 hd
    exact ih (cacheSegment st k d t) g1 g2
      (fun q hq => hsz q (List.mem_cons_of_mem _ hq))

/-- The counter stays an upper bound on the resident bytes over any put
sequence, with no size assumptions. -/
theorem runPuts_counter_ge (puts : List (String × List Nat × Nat)) :
    ∀ st : SegmentCacheState,
      (residentBytes st.segmentCache : Int) ≤ st.currentCacheSize →
      (residentBytes (runPuts st puts).segmentCache : Int)
        ≤ (runPuts st puts).currentCacheSize := by
  induction puts with
  | nil => intro st h; exact h
  | cons p rest ih =>
    obtain ⟨k, d, t⟩ := p
    intro st h
    exact ih (cacheSegment st k d t) (cacheSegment_counter_ge st k d t h)

/-- When the stored key is fresh and the counter is exact, one
cacheSegment call keeps the counter exact and only adds that key. -/
theorem cacheSegment_exact (st : SegmentCacheState) (k : String) (d : List Nat) (t : Nat)
    (ks : List String)
    (h1 : st.currentCacheSize = (residentBytes st.segmentCache : Int))
    (h2 : ∀ x ∈ cacheKeys st.segmentCache, x ∈ ks) (hk : k ∉ ks) :
    (cacheSegment st k d t).currentCacheSize
        = (residentBytes (cacheSegment st k d t).segmentCache : Int)
    ∧ ∀ x ∈ cacheKeys (cacheSegment st k d t).segmentCache, x ∈ k :: ks := by
  obtain ⟨g1, g2, _g3, g4⟩ := evictLoop_spec d.length st.segmentCache st.currentCacheSize
  have hfresh : k ∉ cacheKeys (evictLoop d.length st.segmentCache st.currentCacheSize).1 := by
    intro hm
    simp only [cacheKeys, List.mem_map] at hm
    obtain ⟨p, hp, hpk⟩ := hm
    exact hk (h2 k (by simp only [cacheKeys, List.mem_map]; exact ⟨p, g4 p hp, hpk⟩))
  constructor
  · rw [cacheSegment]
    rw [residentBytes_jsMapSet_fresh _ k ⟨d, t⟩ hfresh]
    push_cast
    omega
  · intro x hx
    rw [cacheSegment] at hx
    rcases cacheKeys_jsMapSet _ k ⟨d, t⟩ x hx with hx | hx
    · simp [hx]
    · simp only [cacheKeys, List.mem_map] at hx
      obtain ⟨p, hp, hpk⟩ := hx
      exact List.mem_cons_of_mem _
        (h2 x (by simp only [cacheKeys, List.mem_map]; exact ⟨p, g4 p hp, hpk⟩))

/-- Over a put sequence with pairwise-distinct keys the counter stays
exactly equal to the resident bytes. -/
theorem runPuts_exact (puts : List (String × List Nat × Nat)) :
    ∀ (st : SegmentCacheState) (ks : List String),
      st.currentCacheSize = (residentBytes st.segmentCache : Int) →
      (∀ x ∈ cacheKeys st.segmentCache, x ∈ ks) →
      (puts.map (fun p => p.1)).Nodup →
      (∀ p ∈ puts, p.1 ∉ ks) →
      (runPuts st puts).currentCacheSize
        = (residentBytes (runPuts st puts).segmentCache : Int) := by
  induction puts with
  | nil => intro st ks h1 _ _ _; exact h1
  | cons p rest ih =>
    obtain ⟨k, d, t⟩ := p
    intro st ks h1 h2 hnd hfresh
    have hk : k ∉ ks := hfresh (k, d, t) (List.mem_cons_self _ _)
    obtain ⟨g1, g2⟩ := cacheSegment_exact st k d t ks h1 h2 hk
    simp only [List.map_cons, List.nodup_cons] at hnd
    refine ih (cacheSegment st k d t) (k :: ks) g1 g2 hnd.2 ?_
    intro q hq
    simp only [List.mem_cons, not_or]
    constructor
    · intro hqk
      exact hnd.1 (hqk ▸ List.mem_map_of_mem (fun p => p.1) hq)
    · exact hfresh q (List.mem_cons_of_mem _ hq)

/-- C5 (counterexample).  The claim that resident cache bytes never
exceed CACHE_MAX_SIZE for any payload sizes is false: a single put whose
payload is one byte larger than the ceiling is stored after the eviction
loop empties the cache, leaving more than CACHE_MAX_SIZE resident
bytes. -/
theorem claim_C5_cache_bound_counterexample :
    CACHE_MAX_SIZE < residentBytes
      (cacheSegment emptySegmentCache "k" (List.replicate (CACHE_MAX_SIZE + 1) 0) 0).segmentCache := by
  have h : ∀ n : Nat, residentBytes
      (cacheSegment emptySegmentCache "k" (List.replicate n 0) 0).segmentCache = n := by
    intro n
    simp [cacheSegment, emptySegmentCache, evictLoop, jsMapSet, residentBytes,
      List.length_replicate]
  rw [h]
  omega

/-- C5 (amended).  After any sequence of cacheSegment calls whose
individual payloads are each at most CACHE_MAX_SIZE, the total bytes
resident in the cache never exceed CACHE_MAX_SIZE; a single payload
larger than the ceiling is the only way to exceed it (streamProxy.js
lines 302-317). -/
theorem claim_C5_cache_bound (puts : List (String × List Nat × Nat))
    (h : ∀ p ∈ puts, p.2.1.length ≤ CACHE_MAX_SIZE) :
    residentBytes (runPuts emptySegmentCache puts).segmentCache ≤ CACHE_MAX_SIZE :=
  (runPuts_bound puts emptySegmentCache (by simp [emptySegmentCache, residentBytes])
    (by simp [emptySegmentCache, residentBytes]) h).1

/-- Witness for the amended C5 at a concrete put sequence. -/
theorem claim_C5_cache_bound_witness :
    residentBytes (runPuts emptySegmentCache
      [("a", [1, 2], 0), ("b", [3], 5), ("a", [4], 9)]).segmentCache ≤ CACHE_MAX_SIZE :=
  claim_C5_cache_bound [("a", [1, 2], 0), ("b", [3], 5), ("a", [4], 9)] (by decide)

/-- C6 (counterexample).  The claim that currentCacheSize always equals
the resident byte total, including across same-key overwrites, is
false: two puts of a one-byte payload under the same key leave the
counter at 2 while only one byte is resident (the overwrite adds the
new length without subtracting the replaced entry's length). -/
theorem claim_C6_size_accounting_counterexample :
    (runPuts emptySegmentCache [("k", [0], 0), ("k", [0], 1)]).currentCacheSize = 2
    ∧ residentBytes (runPuts emptySegmentCache
        [("k", [0], 0), ("k", [0], 1)]).segmentCache = 1
    ∧ (runPuts emptySegmentCache [("k", [0], 0), ("k", [0], 1)]).currentCacheSize
        ≠ (residentBytes (runPuts emptySegmentCache
            [("k", [0], 0), ("k", [0], 1)]).segmentCache : Int) := by
  refine ⟨rfl, rfl, by decide⟩

/-- C6 (amended).  The running counter is always an upper bound on the
resident bytes, and it equals the resident bytes exactly whenever no
put overwrites an existing key (pairwise-distinct keys); a same-key
overwrite leaves the counter strictly above the resident total
(streamProxy.js lines 302-317). -/
theorem claim_C6_size_accounting (puts : List (String × List Nat × Nat)) :
    ((residentBytes (runPuts emptySegmentCache puts).segmentCache : Int)
        ≤ (runPuts emptySegmentCache puts).currentCacheSize)
    ∧ ((puts.map (fun p => p.1)).Nodup →
        (runPuts emptySegmentCache puts).currentCacheSize
          = (residentBytes (runPuts emptySegmentCache puts).segmentCache : Int)) :=
  ⟨runPuts_counter_ge puts emptySegmentCache (by simp [emptySegmentCache, residentBytes]),
    fun hnd => runPuts_exact puts emptySegmentCache []
      (by simp [emptySegmentCache, residentBytes])
      (by simp [emptySegmentCache, cacheKeys]) hnd (by simp)⟩

/-- Witness for the amended C6 at a concrete distinct-key put
sequence. -/
theorem claim_C6_size_accounting_witness :
    ((residentBytes (runPuts emptySegmentCache
          [("a", [0, 0], 0), ("b", [1], 0)]).segmentCache : Int)
        ≤ (runPuts emptySegmentCache [("a", [0, 0], 0), ("b", [1], 0)]).currentCacheSize)
    ∧ (runPuts emptySegmentCache [("a", [0, 0], 0), ("b", [1], 0)]).currentCacheSize
        = (residentBytes (runPuts emptySegmentCache
            [("a", [0, 0], 0), ("b", [1], 0)]).segmentCache : Int) :=
  ⟨(claim_C6_size_accounting [("a", [0, 0], 0), ("b", [1], 0)]).1,
    (claim_C6_size_accounting [("a", [0, 0], 0), ("b", [1], 0)]).2 (by decide)⟩

/-! ### TokenService and StreamRegistry (auth.js lines 41-357)

The module state is the activeStreams and viewerSessions Maps.  JWTs are
modelled as their decoded claim records; jwt.verify's signature check is
not modelled (all Token values stand for correctly signed tokens, which
is how every token handled by the claims is produced), while its expiry
check is: jsonwebtoken rejects a token once the clock in seconds reaches
the exp claim, before any of the module's own checks run.  uuidv4 values
are modelled as caller-supplied Nat arguments. -/

/-- Configured viewer ceiling (tokenConfig.stream.maxConcurrentViewers,
auth.js line 35). -/
def maxConcurrentViewers : Int := 1000

/-- One stream record as stored in activeStreams (auth.js lines
89-99). -/
structure StreamData where
  originalUrl : String
  encryptedUrl : String
  createdAt : Nat
  expiresAt : Nat
  viewerCount : Int
  maxViewers : Int
  isActive : Bool
  tokenJti : Nat
  stoppedAt : Option Nat
deriving DecidableEq, Repr

/-- One viewer session as stored in viewerSessions (auth.js lines
239-244). -/
structure ViewerSession where
  sessionId : String
  streamId : String
  joinedAt : Nat
  lastActivity : Nat
deriving DecidableEq, Repr

/-- The module-level mutable state of auth.js: both Maps. -/
structure AuthState where
  activeStreams : List (String × StreamData)
  viewerSessions : List (String × ViewerSession)
deriving DecidableEq, Repr

/-- The state at module load: both Maps empty. -/
def initialAuthState : AuthState := ⟨[], []⟩

/-- Decoded JWT claims of a stream-access token: stream id, unique token
id (jti), issue time and expiry in seconds. -/
structure Token where
  streamId : String
  jti : Nat
  iat : Nat
  exp : Nat
deriving DecidableEq, Repr

/-- generateToken (auth.js lines 66-119): create the stream record
(active, zero viewers, the fresh jti as the record's generation id,
expiry now plus expiryMinutes), store it under the stream id, and return
the signed token's claims.  The original URL is concealed with
encryptUrl before being embedded. -/
def generateToken (st : AuthState) (key : Nat) (iv : List Nat) (streamId : String)
    (originalUrl : String) (expiryMinutes : Nat) (now : Nat) (jti : Nat) :
    AuthState × Token :=
  let d : StreamData :=
    { originalUrl := originalUrl
      encryptedUrl := encryptUrl key iv (strBytes originalUrl)
      createdAt := now
      expiresAt := now + expiryMinutes * 60 * 1000
      viewerCount := 0
      maxViewers := maxConcurrentViewers
      isActive := true
      tokenJti := jti
      stoppedAt := none }
  let t : Token :=
    { streamId := streamId
      jti := jti
      iat := now / 1000
      exp := now / 1000 + expiryMinutes * 60 }
  ({ st with activeStreams := jsMapSet st.activeStreams streamId d }, t)

/-- Outcome of validateToken: the valid branch carries the decoded
claims and the stream record; the invalid branch carries the error
message. -/
inductive ValidationResult where
  | valid (decoded : Token) (streamData : StreamData)
  | invalid (error : String)
deriving DecidableEq, Repr

/-- Whether a validation outcome is the valid branch. -/
def isTokenValid : ValidationResult → Bool
  | ValidationResult.valid _ _ => true
  | ValidationResult.invalid _ => false

/-- validateToken (auth.js lines 126-168): jwt.verify's expiry check
runs first (jsonwebtoken reports a token expired once the clock reaches
exp); then the stream record must exist, must be active, and the
token's jti must match the record's current generation id. -/
def validateToken (st : AuthState) (nowMs : Nat) (t : Token) : ValidationResult :=
  if t.exp ≤ nowMs / 1000 then ValidationResult.invalid "jwt expired"
  else
    match jsMapGet st.activeStreams t.streamId with
    | none => ValidationResult.invalid "Stream not found or expired"
    | some d =>
      if d.isActive = false then ValidationResult.invalid "Stream has been stopped"
      else if t.jti ≠ d.tokenJti then ValidationResult.invalid "Token has been revoked"
      else ValidationResult.valid t d

/-- registerViewer (auth.js lines 227-256): the stream record must
exist and be below its viewer ceiling; the count is incremented and the
session stored.  The record's isActive flag is never consulted. -/
def registerViewer (st : AuthState) (streamId sessionId : String) (now : Nat) :
    Except String (ViewerSession × AuthState) :=
  match jsMapGet st.activeStreams streamId with
  | none => Except.error "Stream not found"
  | some d =>
    if d.maxViewers ≤ d.viewerCount then Except.error "Maximum viewer limit reached"
    else
      let s : ViewerSession :=
        { sessionId := sessionId
          streamId := streamId
          joinedAt := now
          lastActivity := now }
      let st2 : AuthState :=
        { activeStreams := jsMapSet st.activeStreams streamId
            { d with viewerCount := d.viewerCount + 1 }
          viewerSessions := jsMapSet st.viewerSessions sessionId s }
      Except.ok (s, st2)

/-- removeViewer (auth.js lines 262-278): no-op for an unknown session;
otherwise decrement the owning stream's count floored at zero
(Math.max(0, viewerCount - 1)) and delete the session. -/
def removeViewer (st : AuthState) (sessionId : String) : AuthState :=
  match jsMapGet st.viewerSessions sessionId with
  | none => st
  | some s =>
    match jsMapGet st.activeStreams s.streamId with
    | none => { st with viewerSessions := jsMapDelete st.viewerSessions sessionId }
    | some d =>
      { activeStreams := jsMapSet st.activeStreams s.streamId
          { d with viewerCount := max 0 (d.viewerCount - 1) }
        viewerSessions := jsMapDelete st.viewerSessions sessionId }

/-- stopStream (auth.js lines 284-302): clear the active flag, record
the stop time, and rotate the record's generation id to the fresh uuid
(the JS code mutates the same object that sits in the Map, so the
stored record carries the rotated jti). -/
def stopStream (st : AuthState) (streamId : String) (now : Nat) (newJti : Nat) :
    AuthState × Bool :=
  match jsMapGet st.activeStreams streamId with
  | none => (st, false)
  | some d =>
    let d2 : StreamData := { d with isActive := false, stoppedAt := some now, tokenJti := newJti }
    ({ st with activeStreams := jsMapSet st.activeStreams streamId d2 }, true)

/-- The statistics object getStreamStats returns (auth.js lines
315-323). -/
structure StreamStats where
  streamId : String
  isActive : Bool
  viewerCount : Int
  maxViewers : Int
  createdAt : Nat
  expiresAt : Nat
  uptime : Int
deriving DecidableEq, Repr

/-- getStreamStats (auth.js lines 309-324): a direct projection of the
stored record; the active flag is reported as stored, with no expiry
check. -/
def getStreamStats (st : AuthState) (streamId : String) (now : Nat) : Option StreamStats :=
  match jsMapGet st.activeStreams streamId with
  | none => none
  | some d =>
    some { streamId := streamId
           isActive := d.isActive
           viewerCount := d.viewerCount
           maxViewers := d.maxViewers
           createdAt := d.createdAt
           expiresAt := d.expiresAt
           uptime := (now : Int) - (d.createdAt : Int) }

/-- cleanupExpiredStreams (auth.js lines 329-354): delete every stream
record with expiresAt < now or an inactive flag, together with the
viewer sessions of the deleted streams; returns the number of deleted
records. -/
def cleanupExpiredStreams (st : AuthState) (now : Nat) : AuthState × Nat :=
  ({ activeStreams :=
        st.activeStreams.filter (fun p => !(decide (p.2.expiresAt < now) || !p.2.isActive)),
      viewerSessions :=
        st.viewerSessions.filter (fun q =>
          !((st.activeStreams.filter
              (fun p => decide (p.2.expiresAt < now) || !p.2.isActive)).any
            (fun p => p.1 == q.2.streamId))) },
    (st.activeStreams.filter (fun p => decide (p.2.expiresAt < now) || !p.2.isActive)).length)

/-- One externally triggered operation on the auth module state. -/
inductive AuthOp where
  | generate (key : Nat) (iv : List Nat) (streamId url : String)
      (expiryMinutes now jti : Nat)
  | register (streamId sessionId : String) (now : Nat)
  | removeV (sessionId : String)
  | stop (streamId : String) (now newJti : Nat)
  | cleanup (now : Nat)

/-- Apply one operation; a failing registerViewer leaves the state
unchanged (the thrown error is reported to the caller). -/
def applyOp (st : AuthState) : AuthOp → AuthState
  | AuthOp.generate key iv sid url m now jti => (generateToken st key iv sid url m now jti).1
  | AuthOp.register sid sess now =>
    match registerViewer st sid sess now with
    | Except.ok (_, st2) => st2
    | Except.error _ => st
  | AuthOp.removeV sess => removeViewer st sess
  | AuthOp.stop sid now jti => (stopStream st sid now jti).1
  | AuthOp.cleanup now => (cleanupExpiredStreams st now).1

/-- Run a sequence of operations from a starting state. -/
def runOps : AuthState → List AuthOp → AuthState
  | st, [] => st
  | st, op :: rest => runOps (applyOp st op) rest

/-- The viewer-count invariant of every stream record. -/
def viewerInv (st : AuthState) : Prop :=
  ∀ p ∈ st.activeStreams, 0 ≤ p.2.viewerCount ∧ p.2.viewerCount ≤ p.2.maxViewers

/-! ### Map lemmas -/

/-- Looking up the key just stored yields the stored value. -/
theorem jsMapGet_jsMapSet_self {α : Type} (m : List (String × α)) (k : String) (v : α) :
    jsMapGet (jsMapSet m k v) k = some v := by
  induction m with
  | nil => simp [jsMapSet, jsMapGet]
  | cons p rest ih =>
    obtain ⟨k', w⟩ := p
    by_cases hk : k' = k
    · rw [jsMapSet, if_pos hk, jsMapGet, if_pos hk]
    · rw [jsMapSet, if_neg hk, jsMapGet, if_neg hk]
      exact ih

/-- Every binding after a store is the stored pair or a prior
binding. -/
theorem mem_jsMapSet {α : Type} (m : List (String × α)) (k : String) (v : α) :
    ∀ p ∈ jsMapSet m k v, p = (k, v) ∨ p ∈ m := by
  induction m with
  | nil => simp [jsMapSet]
  | cons q rest ih =>
    obtain ⟨k', w⟩ := q
    intro p hp
    by_cases hk : k' = k
    · rw [jsMapSet, if_pos hk] at hp
      rcases List.mem_cons.mp hp with hp | hp
      · left; rw [hp, hk]
      · right; exact List.mem_cons_of_mem _ hp
    · rw [jsMapSet, if_neg hk] at hp
      rcases List.mem_cons.mp hp with hp | hp
      · right; rw [hp]; exact List.mem_cons_self _ _
      · rcases ih p hp with hp | hp
        · left; exact hp
        · right; exact List.mem_cons_of_mem _ hp

/-- A successful lookup witnesses a binding in the map. -/
theorem jsMapGet_mem {α : Type} (m : List (String × α)) (k : String) (v : α)
    (h : jsMapGet m k = some v) : (k, v) ∈ m := by
  induction m with
  | nil => simp [jsMapGet] at h
  | cons q rest ih =>
    obtain ⟨k', w⟩ := q
    by_cases hk : k' = k
    · rw [jsMapGet, if_pos hk] at h
      subst hk
      rw [Option.some.injEq] at h
      rw [h]
      exact List.mem_cons_self _ _
    · rw [jsMapGet, if_neg hk] at h
      exact List.mem_cons_of_mem _ (ih h)

/-! ### Registry lemmas -/

/-- Characterization of a successful registerViewer call: the record
existed below capacity, and the result state stores the incremented
record and the new session. -/
theorem registerViewer_ok (st : AuthState) (sid sess : String) (now : Nat)
    (s : ViewerSession) (st2 : AuthState)
    (h : registerViewer st sid sess now = Except.ok (s, st2)) :
    ∃ d, jsMapGet st.activeStreams sid = some d ∧ ¬ d.maxViewers ≤ d.viewerCount
      ∧ st2 = AuthState.mk
          (jsMapSet st.activeStreams sid { d with viewerCount := d.viewerCount + 1 })
          (jsMapSet st.viewerSessions sess ⟨sess, sid, now, now⟩) := by
  simp only [registerViewer] at h
  cases hg : jsMapGet st.activeStreams sid with
  | none =>
    rw [hg] at h
    dsimp only at h
    exact absurd h (by simp)
  | some d =>
    rw [hg] at h
    dsimp only at h
    by_cases hcap : d.maxViewers ≤ d.viewerCount
    · rw [if_pos hcap] at h
      exact absurd h (by simp)
    · rw [if_neg hcap] at h
      refine ⟨d, rfl, hcap, ?_⟩
      have hpair := Except.ok.inj h
      exact (Prod.mk.inj hpair).2.symm

/-- Every single operation preserves the viewer-count invariant. -/
theorem viewerInv_applyOp (st : AuthState) (op : AuthOp) (h : viewerInv st) :
    viewerInv (applyOp st op) := by
  cases op with
  | generate key iv sid url m now jti =>
    intro p hp
    simp only [applyOp, generateToken] at hp
    rcases mem_jsMapSet _ _ _ p hp with hp | hp
    · rw [hp]
      simp [maxConcurrentViewers]
    · exact h p hp
  | register sid sess now =>
    cases hr : registerViewer st sid sess now with
    | error e =>
      simp only [applyOp, hr]
      exact h
    | ok pair =>
      obtain ⟨s, st2⟩ := pair
      obtain ⟨d, hg, hcap, hst2⟩ := registerViewer_ok st sid sess now s st2 hr
      simp only [applyOp, hr]
      rw [hst2]
      intro p hp
      dsimp only at hp
      rcases mem_jsMapSet st.activeStreams sid _ p hp with hp | hp
      · rw [hp]
        have hd := h (sid, d) (jsMapGet_mem _ _ _ hg)
        dsimp only at hd ⊢
        constructor
        · omega
        · omega
      · exact h p hp
  | removeV sess =>
    cases hs : jsMapGet st.viewerSessions sess with
    | none =>
      simp only [applyOp, removeViewer, hs]
      exact h
    | some s =>
      cases hg : jsMapGet st.activeStreams s.streamId with
      | none =>
        simp only [applyOp, removeViewer, hs, hg]
        intro p hp
        exact h p hp
      | some d =>
        simp only [applyOp, removeViewer, hs, hg]
        intro p hp
        dsimp only at hp
        rcases mem_jsMapSet st.activeStreams s.streamId _ p hp with hp | hp
        · rw [hp]
          have hd := h (s.streamId, d) (jsMapGet_mem _ _ _ hg)
          dsimp only at hd ⊢
          constructor
          · exact le_max_left 0 _
          · exact max_le (by omega) (by omega)
        · exact h p hp
  | stop sid now jti =>
    cases hg : jsMapGet st.activeStreams sid with
    | none =>
      simp only [applyOp, stopStream, hg]
      exact h
    | some d =>
      simp only [applyOp, stopStream, hg]
      intro p hp
      dsimp only at hp
      rcases mem_jsMapSet st.activeStreams sid _ p hp with hp | hp
      · rw [hp]
        have hd := h (sid, d) (jsMapGet_mem _ _ _ hg)
        dsimp only at hd ⊢
        exact hd
      · exact h p hp
  | cleanup now =>
    intro p hp
    simp only [applyOp, cleanupExpiredStreams] at hp
    exact h p (List.mem_filter.mp hp).1

/-- Running any operation sequence preserves the invariant. -/
theorem viewerInv_runOps (ops : List AuthOp) :
    ∀ st : AuthState, viewerInv st → viewerInv (runOps st ops) := by
  induction ops with
  | nil => intro st h; exact h
  | cons op rest ih =>
    intro st h
    exact ih (applyOp st op) (viewerInv_applyOp st op h)

/-- C4.  Viewer bounds: every operation preserves
0 <= viewerCount <= maxViewers, so every state reachable from the empty
registry satisfies it (hence removeViewer, including for unknown or
duplicate sessions, never drives a count below zero); and registerViewer
fails with the capacity error exactly when the count has reached the
ceiling, so the (N+1)-th join on a stream with ceiling N fails
(auth.js lines 227-278). -/
theorem claim_C4_viewer_bounds :
    (∀ (st : AuthState) (op : AuthOp), viewerInv st → viewerInv (applyOp st op))
    ∧ (∀ ops : List AuthOp, viewerInv (runOps initialAuthState ops))
    ∧ (∀ (st : AuthState) (sid sess : String) (now : Nat) (d : StreamData),
        jsMapGet st.activeStreams sid = some d → d.viewerCount = d.maxViewers →
        registerViewer st sid sess now = Except.error "Maximum viewer limit reached") := by
  refine ⟨viewerInv_applyOp, ?_, ?_⟩
  · intro ops
    refine viewerInv_runOps ops initialAuthState ?_
    intro p hp
    simp [initialAuthState] at hp
  · intro st sid sess now d hg hfull
    simp only [registerViewer, hg]
    rw [if_pos (le_of_eq hfull.symm)]

/-- Witness for C4: the invariant holds after a concrete operation
sequence, and a concrete stream at its ceiling rejects the next join. -/
theorem claim_C4_viewer_bounds_witness :
    viewerInv (runOps initialAuthState
      [AuthOp.generate 0 [0] "s1" "u" 2 0 7, AuthOp.register "s1" "v1" 1,
        AuthOp.removeV "v1", AuthOp.removeV "v1"])
    ∧ registerViewer
        ⟨[("s1", ⟨"u", "e", 0, 9, 3, 3, true, 7, none⟩)], []⟩ "s1" "v9" 4
        = Except.error "Maximum viewer limit reached" :=
  ⟨claim_C4_viewer_bounds.2.1
      [AuthOp.generate 0 [0] "s1" "u" 2 0 7, AuthOp.register "s1" "v1" 1,
        AuthOp.removeV "v1", AuthOp.removeV "v1"],
    claim_C4_viewer_bounds.2.2
      ⟨[("s1", ⟨"u", "e", 0, 9, 3, 3, true, 7, none⟩)], []⟩ "s1" "v9" 4
      ⟨"u", "e", 0, 9, 3, 3, true, 7, none⟩ rfl rfl⟩

/-- C1.  Revocation: after stopStream on a stream present in the
registry, validateToken never returns valid for any token bound to that
stream (whatever its jti or expiry); when the token is not yet expired
the failure is exactly the stream-stopped error (the spec's
StreamStopped, one of the two errors the claim allows); and a token
freshly issued for the same stream after the stop validates
successfully before its own expiry, unaffected by the prior stop
(auth.js lines 66-168 and 284-302). -/
theorem claim_C1_revocation (st : AuthState) (sid : String) (stopNow newJti : Nat)
    (t : Token) (nowMs : Nat) (hsid : t.streamId = sid)
    (hmem : (jsMapGet st.activeStreams sid).isSome = true) :
    isTokenValid (validateToken (stopStream st sid stopNow newJti).1 nowMs t) = false
    ∧ (nowMs / 1000 < t.exp →
        validateToken (stopStream st sid stopNow newJti).1 nowMs t
          = ValidationResult.invalid "Stream has been stopped")
    ∧ (∀ (key : Nat) (iv : List Nat) (url : String) (m now2 jti2 vNow : Nat),
        vNow / 1000
            < ((generateToken (stopStream st sid stopNow newJti).1 key iv sid url
                m now2 jti2).2).exp →
        isTokenValid (validateToken
            (generateToken (stopStream st sid stopNow newJti).1 key iv sid url
              m now2 jti2).1 vNow
            (generateToken (stopStream st sid stopNow newJti).1 key iv sid url
              m now2 jti2).2) = true) := by
  obtain ⟨d, hd⟩ := Option.isSome_iff_exists.mp hmem
  have hstop : (stopStream st sid stopNow newJti).1
      = AuthState.mk
          (jsMapSet st.activeStreams sid { d with isActive := false, stoppedAt := some stopNow, tokenJti := newJti })
          st.viewerSessions := by
    simp only [stopStream, hd]
  refine ⟨?_, ?_, ?_⟩
  · rw [hstop, validateToken]
    by_cases hexp : t.exp ≤ nowMs / 1000
    · rw [if_pos hexp]; rfl
    · rw [if_neg hexp]
      simp only [hsid, jsMapGet_jsMapSet_self]
      rfl
  · intro hlive
    rw [hstop, validateToken, if_neg (by omega)]
    simp only [hsid, jsMapGet_jsMapSet_self]
    rfl
  · intro key iv url m now2 jti2 vNow hlive
    rw [generateToken] at hlive ⊢
    simp only [validateToken, jsMapGet_jsMapSet_self]
    rw [if_neg (by simp only at hlive; omega)]
    simp [isTokenValid]

/-- Witness for C1 at a concrete issued token, stop, and re-issue. -/
theorem claim_C1_revocation_witness :
    isTokenValid (validateToken
        (stopStream (generateToken initialAuthState 0 [0] "s1" "u" 2 0 7).1 "s1" 1000 9).1
        5000 (generateToken initialAuthState 0 [0] "s1" "u" 2 0 7).2) = false
    ∧ validateToken
        (stopStream (generateToken initialAuthState 0 [0] "s1" "u" 2 0 7).1 "s1" 1000 9).1
        5000 (generateToken initialAuthState 0 [0] "s1" "u" 2 0 7).2
        = ValidationResult.invalid "Stream has been stopped"
    ∧ isTokenValid (validateToken
        (generateToken
          (stopStream (generateToken initialAuthState 0 [0] "s1" "u" 2 0 7).1 "s1" 1000 9).1
          0 [0] "s1" "u" 2 2000 11).1 3000
        (generateToken
          (stopStream (generateToken initialAuthState 0 [0] "s1" "u" 2 0 7).1 "s1" 1000 9).1
          0 [0] "s1" "u" 2 2000 11).2) = true :=
  ⟨(claim_C1_revocation (generateToken initialAuthState 0 [0] "s1" "u" 2 0 7).1 "s1" 1000 9
      (generateToken initialAuthState 0 [0] "s1" "u" 2 0 7).2 5000 rfl (by decide)).1,
    (claim_C1_revocation (generateToken initialAuthState 0 [0] "s1" "u" 2 0 7).1 "s1" 1000 9
      (generateToken initialAuthState 0 [0] "s1" "u" 2 0 7).2 5000 rfl (by decide)).2.1
      (by decide),
    (claim_C1_revocation (generateToken initialAuthState 0 [0] "s1" "u" 2 0 7).1 "s1" 1000 9
      (generateToken initialAuthState 0 [0] "s1" "u" 2 0 7).2 5000 rfl (by decide)).2.2
      0 [0] "u" 2 2000 11 3000 (by decide)⟩

/-- C9 (counterexample).  The claim that a record past its expiry has a
false active flag is refuted by issuing a one-minute stream at time 0
and observing it at time 60001: the record is still in the registry
with expiresAt 60000 in the past and isActive still true, and
getStreamStats reports it active. -/
theorem claim_C9_expiry_flag_counterexample :
    ∃ d : StreamData,
      jsMapGet (generateToken initialAuthState 0 [0] "s1" "u" 1 0 7).1.activeStreams "s1"
          = some d
      ∧ d.expiresAt ≤ 60001 ∧ d.isActive = true
      ∧ (getStreamStats (generateToken initialAuthState 0 [0] "s1" "u" 1 0 7).1 "s1"
          60001).map (fun x => x.isActive) = some true := by
  refine ⟨_, rfl, ?_, rfl, rfl⟩
  decide

/-- C9 (amended).  Expiry alone does not clear a record's stored active
flag: an expired record keeps isActive = true (as observed by
getStreamStats, validateToken, and registerViewer) until the periodic
reaper deletes it.  What does hold is that after cleanupExpiredStreams
at time now, every record still in the registry is active and not yet
expired (auth.js lines 329-354). -/
theorem claim_C9_expiry_flag (st : AuthState) (now : Nat) :
    ∀ p ∈ (cleanupExpiredStreams st now).1.activeStreams,
      p.2.isActive = true ∧ ¬ p.2.expiresAt < now := by
  intro p hp
  simp only [cleanupExpiredStreams] at hp
  have hf := (List.mem_filter.mp hp).2
  simp only [Bool.not_eq_true', Bool.or_eq_false_iff, decide_eq_false_iff_not,
    Bool.not_eq_false] at hf
  exact ⟨by simpa using hf.2, hf.1⟩

/-- Witness for the amended C9: the record surviving a concrete cleanup
is active and unexpired. -/
theorem claim_C9_expiry_flag_witness :
    (("s1", (⟨"u", "e", 0, 9000, 0, 3, true, 7, none⟩ : StreamData))).2.isActive = true
    ∧ ¬ (("s1", (⟨"u", "e", 0, 9000, 0, 3, true, 7, none⟩ : StreamData))).2.expiresAt
        < 5000 :=
  claim_C9_expiry_flag
    ⟨[("s1", ⟨"u", "e", 0, 9000, 0, 3, true, 7, none⟩),
      ("s2", ⟨"u", "e", 0, 10, 0, 3, true, 8, none⟩)], []⟩ 5000
    ("s1", ⟨"u", "e", 0, 9000, 0, 3, true, 7, none⟩) (by decide)

/-- C10.  registerViewer never inspects the active flag: for every
stream record still in the registry with viewerCount below maxViewers —
in particular a stopped record with isActive = false — registerViewer
succeeds, returns the new session, and increments the stored viewer
count (auth.js lines 227-256). -/
theorem claim_C10_register_ignores_stopped (st : AuthState) (sid sess : String)
    (now : Nat) (d : StreamData) (hd : jsMapGet st.activeStreams sid = some d)
    (hcap : d.viewerCount < d.maxViewers) :
    ∃ st2 : AuthState,
      registerViewer st sid sess now = Except.ok (⟨sess, sid, now, now⟩, st2)
      ∧ jsMapGet st2.activeStreams sid
          = some { d with viewerCount := d.viewerCount + 1 } := by
  simp only [registerViewer, hd]
  rw [if_neg (not_le.mpr hcap)]
  exact ⟨_, rfl, jsMapGet_jsMapSet_self _ _ _⟩

/-! ### ManifestRewriter: model of rewriteManifestUrls (streamProxy.js
lines 237-295)

JS strings are handled as Lean character lists.  The helpers model the
JS string methods used by the rewriter (split, trim, startsWith,
endsWith, includes, first-occurrence replace), the URI="..." regex
capture, encodeURIComponent, and Node's url.resolve (modelled for
scheme-absolute, protocol-relative, root-relative and path-relative
references without dot segments, which is the behaviour the rewriter
relies on).  encryptUrl draws a fresh nonce per call: the nonce source
is modelled as a function from a call counter to the IV bytes. -/

/-- JS String.prototype.split on an arbitrary separator character. -/
def jsSplit (sep : Char) : List Char → List (List Char)
  | [] => [[]]
  | c :: rest =>
    if c = sep then [] :: jsSplit sep rest
    else
      match jsSplit sep rest with
      | [] => [[c]]
      | p :: ps => (c :: p) :: ps

/-- Array.prototype.join with the newline separator. -/
def joinNewline : List (List Char) → List Char
  | [] => []
  | [l] => l
  | l :: rest => l ++ '\n' :: joinNewline rest

/-- Whitespace for JS String.prototype.trim. -/
def isJsSpace (c : Char) : Bool :=
  c == ' ' || c == '\t' || c == '\n' || c == '\r'
    || c == Char.ofNat 11 || c == Char.ofNat 12

/-- JS String.prototype.trim. -/
def trimChars (cs : List Char) : List Char :=
  ((cs.dropWhile isJsSpace).reverse.dropWhile isJsSpace).reverse

/-- JS String.prototype.startsWith. -/
def startsWithChars : List Char → List Char → Bool
  | _, [] => true
  | [], _ :: _ => false
  | c :: cs, p :: ps => c == p && startsWithChars cs ps

/-- JS String.prototype.endsWith. -/
def endsWithChars (s pat : List Char) : Bool :=
  startsWithChars s.reverse pat.reverse

/-- JS String.prototype.includes. -/
def containsSub : List Char → List Char → Bool
  | [], pat => startsWithChars [] pat
  | c :: rest, pat => startsWithChars (c :: rest) pat || containsSub rest pat

/-- JS String.prototype.replace with a string pattern: replace the
first occurrence only. -/
def replaceFirst : List Char → List Char → List Char → List Char
  | [], pat, rep => if startsWithChars [] pat then rep else []
  | c :: rest, pat, rep =>
    if startsWithChars (c :: rest) pat then rep ++ (c :: rest).drop pat.length
    else c :: replaceFirst rest pat rep

/-- The regex match URI="([^"]+)" used on EXT-X-KEY lines: the first
position carrying the literal URI=" followed by at least one non-quote
character and a closing quote yields the captured group. -/
def uriAttr : List Char → Option (List Char)
  | [] => none
  | c :: rest =>
    if startsWithChars (c :: rest) ['U', 'R', 'I', '=', '"'] then
      match (List.drop 4 rest).takeWhile (fun x => !(x == '"')),
          (List.drop 4 rest).dropWhile (fun x => !(x == '"')) with
      | [], _ => uriAttr rest
      | _ :: _, [] => uriAttr rest
      | cap, _ :: _ => some cap
    else uriAttr rest

/-- Characters encodeURIComponent leaves unescaped. -/
def isUnescapedURI (c : Char) : Bool :=
  ('A' ≤ c && c ≤ 'Z') || ('a' ≤ c && c ≤ 'z') || ('0' ≤ c && c ≤ '9')
    || c == '-' || c == '_' || c == '.' || c == '!' || c == '~' || c == '*'
    || c == '\'' || c == '(' || c == ')'

/-- Uppercase hex digit of a nibble, as produced by percent escapes. -/
def percentHexDigit (n : Nat) : Char :=
  if n < 10 then Char.ofNat (48 + n) else Char.ofNat (55 + n)

/-- Percent escape of one byte. -/
def percentEncodeByte (b : Nat) : List Char :=
  ['%', percentHexDigit (b / 16 % 16), percentHexDigit (b % 16)]

/-- encodeURIComponent on a character list: unescaped characters pass
through, every other character is percent-escaped per UTF-8 byte. -/
def encodeURIChars (cs : List Char) : List Char :=
  cs.foldr (fun c acc =>
    (if isUnescapedURI c then [c]
      else (utf8Bytes c).foldr (fun b a => percentEncodeByte b ++ a) []) ++ acc) []

/-- encodeURIComponent on strings. -/
def encodeURIComponent (s : String) : String :=
  String.mk (encodeURIChars s.data)

/-- UTF-8 bytes of a character list. -/
def charsBytes (cs : List Char) : List Nat :=
  cs.foldr (fun c acc => utf8Bytes c ++ acc) []

/-- Whether a character may open a URL scheme. -/
def isAlphaChar (c : Char) : Bool :=
  ('A' ≤ c && c ≤ 'Z') || ('a' ≤ c && c ≤ 'z')

/-- Whether a character may continue a URL scheme. -/
def isSchemeTail (c : Char) : Bool :=
  isAlphaChar c || ('0' ≤ c && c ≤ '9') || c == '+' || c == '-' || c == '.'

/-- Scan for the colon that closes a scheme prefix. -/
def schemeScan : List Char → Bool
  | [] => false
  | c :: rest => if c == ':' then true else isSchemeTail c && schemeScan rest

/-- Whether a reference carries its own scheme (it is then absolute). -/
def hasScheme : List Char → Bool
  | [] => false
  | c :: rest => isAlphaChar c && schemeScan rest

/-- The prefix of a path up to and including its last slash, if any. -/
def upToLastSlash : List Char → Option (List Char)
  | [] => none
  | c :: rest =>
    match upToLastSlash rest with
    | some t => some (c :: t)
    | none => if c == '/' then some [c] else none

/-- scheme://host of an absolute URL. -/
def originOf (b : List Char) : List Char :=
  let scheme := b.takeWhile (fun c => !(c == ':'))
  let rest := b.drop (scheme.length + 3)
  scheme ++ ':' :: '/' :: '/'
    :: rest.takeWhile (fun c => !(c == '/' || c == '?' || c == '#'))

/-- scheme://host/dir/ of an absolute URL: everything up to and
including the last slash of the path, queries and fragments dropped. -/
def dirOf (b : List Char) : List Char :=
  let scheme := b.takeWhile (fun c => !(c == ':'))
  let hostAndPath := b.drop (scheme.length + 3)
  let host := hostAndPath.takeWhile (fun c => !(c == '/' || c == '?' || c == '#'))
  let path := (hostAndPath.drop host.length).takeWhile (fun c => !(c == '?' || c == '#'))
  match upToLastSlash path with
  | some p => scheme ++ ':' :: '/' :: '/' :: (host ++ p)
  | none => scheme ++ ':' :: '/' :: '/' :: (host ++ ['/'])

/-- Model of Node url.resolve(base, ref) for the reference shapes the
rewriter meets: scheme-absolute references pass through, protocol- and
root-relative references take the base's scheme or origin, and plain
relative references resolve against the base's directory. -/
def resolveChars (base ref : List Char) : List Char :=
  if hasScheme ref then ref
  else if startsWithChars ref ['/', '/'] then
    base.takeWhile (fun c => !(c == ':')) ++ ':' :: ref
  else if startsWithChars ref ['/'] then originOf base ++ ref
  else dirOf base ++ ref

/-- One iteration of the rewrite loop of rewriteManifestUrls
(streamProxy.js lines 242-291) on one playlist line, threading the
nonce counter: blank lines and non-key comments pass through; a key
line with a URI attribute has the attribute value replaced by the proxy
key endpoint; lines ending in .m3u8 become the proxy manifest endpoint;
lines ending in .ts or containing .ts?, and lines ending in .mp4 or
.m4s, become the proxy segment endpoint; everything else passes
through. -/
def rewriteLine (key : Nat) (ivs : Nat → List Nat) (baseUrl proxyBaseUrl : List Char)
    (line : List Char) (ctr : Nat) : List Char × Nat :=
  let t := trimChars line
  if t.isEmpty || (startsWithChars t ['#'] && !startsWithChars t ("#EXT-X-KEY".data)) then
    (line, ctr)
  else
    match (if startsWithChars t ("#EXT-X-KEY".data) then uriAttr t else none) with
    | some uri =>
      (replaceFirst line uri
        (proxyBaseUrl ++ ("/key?url=".data
          ++ encodeURIChars (encryptUrl key (ivs ctr)
              (charsBytes (resolveChars baseUrl uri))).data)), ctr + 1)
    | none =>
      if endsWithChars t (".m3u8".data) then
        (proxyBaseUrl ++ ("/manifest?url=".data
          ++ encodeURIChars (encryptUrl key (ivs ctr)
              (charsBytes (resolveChars baseUrl t))).data), ctr + 1)
      else if endsWithChars t (".ts".data) || containsSub t (".ts?".data) then
        (proxyBaseUrl ++ ("/segment?url=".data
          ++ encodeURIChars (encryptUrl key (ivs ctr)
              (charsBytes (resolveChars baseUrl t))).data), ctr + 1)
      else if endsWithChars t (".mp4".data) || endsWithChars t (".m4s".data) then
        (proxyBaseUrl ++ ("/segment?url=".data
          ++ encodeURIChars (encryptUrl key (ivs ctr)
              (charsBytes (resolveChars baseUrl t))).data), ctr + 1)
      else (line, ctr)

/-- The rewrite loop over all playlist lines. -/
def rewriteLines (key : Nat) (ivs : Nat → List Nat) (baseUrl proxyBaseUrl : List Char) :
    Nat → List (List Char) → List (List Char)
  | _, [] => []
  | ctr, l :: rest =>
    (rewriteLine key ivs baseUrl proxyBaseUrl l ctr).1
      :: rewriteLines key ivs baseUrl proxyBaseUrl
        (rewriteLine key ivs baseUrl proxyBaseUrl l ctr).2 rest

/-- rewriteManifestUrls (streamProxy.js lines 237-295): split the
manifest into lines, rewrite each line in order, and join with
newlines. -/
def rewriteManifestUrls (key : Nat) (ivs : Nat → List Nat)
    (manifest baseUrl proxyBaseUrl : String) : String :=
  String.mk (joinNewline
    (rewriteLines key ivs baseUrl.data proxyBaseUrl.data 0 (jsSplit '\n' manifest.data)))

/-- Splitting a separator-free character list yields that single
line. -/
theorem jsSplit_of_not_mem (sep : Char) (c : List Char) (h : sep ∉ c) :
    jsSplit sep c = [c] := by
  induction c with
  | nil => rfl
  | cons x xs ih =>
    have hx : ¬ x = sep := fun he => h (by simp [he])
    rw [jsSplit, if_neg hx, ih (fun hm => h (List.mem_cons_of_mem _ hm))]

/-- C7 (counterexample).  The claim that every variant/segment/init/key
URI reference, including ones carrying a query string, is replaced by a
proxy endpoint is false: a variant sub-playlist reference with a query
string (low.m3u8?v=1) matches none of the rewriter's suffix tests and
passes through unchanged, leaving the origin-relative reference in the
output. -/
theorem claim_C7_rewrite_uri_classes_counterexample :
    rewriteManifestUrls 0 (fun _ => [1]) "low.m3u8?v=1"
        "https://origin.example/live/index.m3u8" "https://p/proxy"
      = "low.m3u8?v=1" := rfl

/-- C7 (amended).  Per playlist line: a key line whose URI attribute
matches is rewritten to the proxy key endpoint inside the line; a line
ending in .m3u8 becomes the proxy manifest endpoint; a line ending in
.ts or containing .ts? becomes the proxy segment endpoint; a line
ending in .mp4 or .m4s becomes the proxy segment endpoint; but a
variant or init reference carrying a query string (such as one merely
containing .m3u8? and matching no suffix test) passes through
unchanged, so origin URLs of that shape do survive in the output.
A one-line manifest shows rewriteManifestUrls acts through exactly this
per-line transform (streamProxy.js lines 237-295). -/
theorem claim_C7_rewrite_uri_classes (key : Nat) (ivs : Nat → List Nat)
    (base proxy line : List Char) (ctr : Nat) :
    ('\n' ∉ line →
      rewriteManifestUrls key ivs (String.mk line) (String.mk base) (String.mk proxy)
        = String.mk (rewriteLine key ivs base proxy line 0).1)
    ∧ (∀ uri, startsWithChars (trimChars line) ("#EXT-X-KEY".data) = true →
      uriAttr (trimChars line) = some uri →
      (rewriteLine key ivs base proxy line ctr).1
        = replaceFirst line uri
            (proxy ++ ("/key?url=".data ++ encodeURIChars
              (encryptUrl key (ivs ctr) (charsBytes (resolveChars base uri))).data)))
    ∧ (startsWithChars (trimChars line) ['#'] = false →
      endsWithChars (trimChars line) (".m3u8".data) = true →
      (rewriteLine key ivs base proxy line ctr).1
        = proxy ++ ("/manifest?url=".data ++ encodeURIChars
            (encryptUrl key (ivs ctr)
              (charsBytes (resolveChars base (trimChars line)))).data))
    ∧ (startsWithChars (trimChars line) ['#'] = false →
      endsWithChars (trimChars line) (".m3u8".data) = false →
      (endsWithChars (trimChars line) (".ts".data)
          || containsSub (trimChars line) (".ts?".data)) = true →
      (rewriteLine key ivs base proxy line ctr).1
        = proxy ++ ("/segment?url=".data ++ encodeURIChars
            (encryptUrl key (ivs ctr)
              (charsBytes (resolveChars base (trimChars line)))).data))
    ∧ (startsWithChars (trimChars line) ['#'] = false →
      endsWithChars (trimChars line) (".m3u8".data) = false →
      (endsWithChars (trimChars line) (".ts".data)
          || containsSub (trimChars line) (".ts?".data)) = false →
      (endsWithChars (trimChars line) (".mp4".data)
          || endsWithChars (trimChars line) (".m4s".data)) = true →
      (rewriteLine key ivs base proxy line ctr).1
        = proxy ++ ("/segment?url=".data ++ encodeURIChars
            (encryptUrl key (ivs ctr)
              (charsBytes (resolveChars base (trimChars line)))).data))
    ∧ (startsWithChars (trimChars line) ['#'] = false →
      endsWithChars (trimChars line) (".m3u8".data) = false →
      (endsWithChars (trimChars line) (".ts".data)
          || containsSub (trimChars line) (".ts?".data)) = false →
      (endsWithChars (trimChars line) (".mp4".data)
          || endsWithChars (trimChars line) (".m4s".data)) = false →
      (rewriteLine key ivs base proxy line ctr).1 = line) := by
  refine ⟨?_, ?_, ?_, ?_, ?_, ?_⟩
  · intro hnl
    rw [rewriteManifestUrls]
    rw [show (String.mk line).data = line from rfl, jsSplit_of_not_mem _ _ hnl]
    rfl
  · intro uri hkey huri
    have hne : trimChars line ≠ [] := by
      intro h0
      rw [h0] at hkey
      exact absurd hkey (by decide)
    have hie : (trimChars line).isEmpty = false := by
      cases h0 : trimChars line with
      | nil => exact absurd h0 hne
      | cons a as => rfl
    rw [rewriteLine]
    rw [hie, hkey, huri]
    simp
  · intro hhash hm3u8
    have hkey : startsWithChars (trimChars line) ("#EXT-X-KEY".data) = false := by
      cases h0 : trimChars line with
      | nil => rfl
      | cons a as =>
        rw [h0] at hhash
        rw [show ("#EXT-X-KEY".data) = '#' :: "EXT-X-KEY".data from rfl]
        rw [startsWithChars] at hhash ⊢
        simp only [Bool.and_eq_false_iff] at hhash ⊢
        rcases hhash with hhash | hhash
        · exact Or.inl hhash
        · exact absurd hhash (by simp [startsWithChars])
    have hne : trimChars line ≠ [] := by
      intro h0
      rw [h0] at hm3u8
      exact absurd hm3u8 (by decide)
    have hie : (trimChars line).isEmpty = false := by
      cases h0 : trimChars line with
      | nil => exact absurd h0 hne
      | cons a as => rfl
    rw [rewriteLine]
    rw [hie, hhash, hkey, hm3u8]
    simp
  · intro hhash hm3u8 hts
    have hkey : startsWithChars (trimChars line) ("#EXT-X-KEY".data) = false := by
      cases h0 : trimChars line with
      | nil => rfl
      | cons a as =>
        rw [h0] at hhash
        rw [show ("#EXT-X-KEY".data) = '#' :: "EXT-X-KEY".data from rfl]
        rw [startsWithChars] at hhash ⊢
        simp only [Bool.and_eq_false_iff] at hhash ⊢
        rcases hhash with hhash | hhash
        · exact Or.inl hhash
        · exact absurd hhash (by simp [startsWithChars])
    have hne : trimChars line ≠ [] := by
      intro h0
      rw [h0] at hts
      exact absurd hts (by decide)
    have hie : (trimChars line).isEmpty = false := by
      cases h0 : trimChars line with
      | nil => exact absurd h0 hne
      | cons a as => rfl
    rw [rewriteLine]
    rw [hie, hhash, hkey, hm3u8, hts]
    simp
  · intro hhash hm3u8 hts hmp4
    have hkey : startsWithChars (trimChars line) ("#EXT-X-KEY".data) = false := by
      cases h0 : trimChars line with
      | nil => rfl
      | cons a as =>
        rw [h0] at hhash
        rw [show ("#EXT-X-KEY".data) = '#' :: "EXT-X-KEY".data from rfl]
        rw [startsWithChars] at hhash ⊢
        simp only [Bool.and_eq_false_iff] at hhash ⊢
        rcases hhash with hhash | hhash
        · exact Or.inl hhash
        · exact absurd hhash (by simp [startsWithChars])
    have hne : trimChars line ≠ [] := by
      intro h0
      rw [h0] at hmp4
      exact absurd hmp4 (by decide)
    have hie : (trimChars line).isEmpty = false := by
      cases h0 : trimChars line with
      | nil => exact absurd h0 hne
      | cons a as => rfl
    rw [rewriteLine]
    rw [hie, hhash, hkey, hm3u8, hts, hmp4]
    simp
  · intro hhash hm3u8 hts hmp4
    have hkey : startsWithChars (trimChars line) ("#EXT-X-KEY".data) = false := by
      cases h0 : trimChars line with
      | nil => rfl
      | cons a as =>
        rw [h0] at hhash
        rw [show ("#EXT-X-KEY".data) = '#' :: "EXT-X-KEY".data from rfl]
        rw [startsWithChars] at hhash ⊢
        simp only [Bool.and_eq_false_iff] at hhash ⊢
        rcases hhash with hhash | hhash
        · exact Or.inl hhash
        · exact absurd hhash (by simp [startsWithChars])
    rw [rewriteLine]
    by_cases hie : (trimChars line).isEmpty
    · rw [hie]
      simp
    · rw [Bool.not_eq_true] at hie
      rw [hie, hhash, hkey, hm3u8, hts, hmp4]
      simp

/-- Witness for the amended C7: one concrete line of each class (key
line, variant, segment with query, init segment, and a query-carrying
variant that passes through). -/
theorem claim_C7_rewrite_uri_classes_witness :
    rewriteManifestUrls 7 (fun _ => [2]) (String.mk "seg1.ts".data)
        (String.mk "https://origin.example/live/index.m3u8".data)
        (String.mk "https://p/proxy".data)
      = String.mk (rewriteLine 7 (fun _ => [2])
          "https://origin.example/live/index.m3u8".data "https://p/proxy".data
          "seg1.ts".data 0).1
    ∧ (rewriteLine 7 (fun _ => [2]) "https://origin.example/live/index.m3u8".data
          "https://p/proxy".data "#EXT-X-KEY:METHOD=AES-128,URI=\"k.key\"".data 0).1
        = replaceFirst "#EXT-X-KEY:METHOD=AES-128,URI=\"k.key\"".data "k.key".data
            ("https://p/proxy".data ++ ("/key?url=".data ++ encodeURIChars
              (encryptUrl 7 [2] (charsBytes
                (resolveChars "https://origin.example/live/index.m3u8".data
                  "k.key".data))).data))
    ∧ (rewriteLine 7 (fun _ => [2]) "https://origin.example/live/index.m3u8".data
          "https://p/proxy".data "low.m3u8".data 0).1
        = "https://p/proxy".data ++ ("/manifest?url=".data ++ encodeURIChars
            (encryptUrl 7 [2] (charsBytes
              (resolveChars "https://origin.example/live/index.m3u8".data
                (trimChars "low.m3u8".data)))).data)
    ∧ (rewriteLine 7 (fun _ => [2]) "https://origin.example/live/index.m3u8".data
          "https://p/proxy".data "seg1.ts?x=1".data 0).1
        = "https://p/proxy".data ++ ("/segment?url=".data ++ encodeURIChars
            (encryptUrl 7 [2] (charsBytes
              (resolveChars "https://origin.example/live/index.m3u8".data
                (trimChars "seg1.ts?x=1".data)))).data)
    ∧ (rewriteLine 7 (fun _ => [2]) "https://origin.example/live/index.m3u8".data
          "https://p/proxy".data "init.mp4".data 0).1
        = "https://p/proxy".data ++ ("/segment?url=".data ++ encodeURIChars
            (encryptUrl 7 [2] (charsBytes
              (resolveChars "https://origin.example/live/index.m3u8".data
                (trimChars "init.mp4".data)))).data)
    ∧ (rewriteLine 7 (fun _ => [2]) "https://origin.example/live/index.m3u8".data
          "https://p/proxy".data "low.m3u8?v=1".data 0).1 = "low.m3u8?v=1".data :=
  ⟨(claim_C7_rewrite_uri_classes 7 (fun _ => [2])
      "https://origin.example/live/index.m3u8".data "https://p/proxy".data
      "seg1.ts".data 0).1 (by decide),
    (claim_C7_rewrite_uri_classes 7 (fun _ => [2])
      "https://origin.example/live/index.m3u8".data "https://p/proxy".data
      "#EXT-X-KEY:METHOD=AES-128,URI=\"k.key\"".data 0).2.1
      "k.key".data (by decide) (by decide),
    (claim_C7_rewrite_uri_classes 7 (fun _ => [2])
      "https://origin.example/live/index.m3u8".data "https://p/proxy".data
      "low.m3u8".data 0).2.2.1 (by decide) (by decide),
    (claim_C7_rewrite_uri_classes 7 (fun _ => [2])
      "https://origin.example/live/index.m3u8".data "https://p/proxy".data
      "seg1.ts?x=1".data 0).2.2.2.1 (by decide) (by decide) (by decide),
    (claim_C7_rewrite_uri_classes 7 (fun _ => [2])
      "https://origin.example/live/index.m3u8".data "https://p/proxy".data
      "init.mp4".data 0).2.2.2.2.1 (by decide) (by decide) (by decide) (by decide),
    (claim_C7_rewrite_uri_classes 7 (fun _ => [2])
      "https://origin.example/live/index.m3u8".data "https://p/proxy".data
      "low.m3u8?v=1".data 0).2.2.2.2.2 (by decide) (by decide) (by decide) (by decide)⟩

/-- C8.  Rewrite correctness on the spec's example: for the playlist
consisting of the line #EXTINF:4.0, followed by segment001.ts, with
base URL https://origin.example/live/index.m3u8, rewriteManifestUrls
resolves the relative reference to
https://origin.example/live/segment001.ts, conceals it with the first
fresh nonce, and emits proxyBase/segment?url= followed by the
url-encoded ciphertext, leaving the #EXTINF line unchanged; and
decryptUrl applied to that ciphertext yields exactly the resolved
absolute URL (streamProxy.js lines 242-292, auth.js lines 199-219). -/
theorem claim_C8_rewrite_segment_example (key : Nat) (ivs : Nat → List Nat)
    (proxyBase : String) (hiv : ∀ b ∈ ivs 0, b < 256) :
    rewriteManifestUrls key ivs "#EXTINF:4.0,\nsegment001.ts"
        "https://origin.example/live/index.m3u8" proxyBase
      = "#EXTINF:4.0,\n" ++ (proxyBase ++ ("/segment?url="
        ++ encodeURIComponent (encryptUrl key (ivs 0)
            (strBytes "https://origin.example/live/segment001.ts"))))
    ∧ decryptUrl key (encryptUrl key (ivs 0)
          (strBytes "https://origin.example/live/segment001.ts"))
        = Except.ok (strBytes "https://origin.example/live/segment001.ts") := by
  constructor
  · rfl
  · exact decryptUrl_encryptUrl key (ivs 0) _ (charsBytes_aux_lt _) hiv

/-- Witness for C8 at a concrete key, nonce source, and proxy base. -/
theorem claim_C8_rewrite_segment_example_witness :
    rewriteManifestUrls 0 (fun _ => [1]) "#EXTINF:4.0,\nsegment001.ts"
        "https://origin.example/live/index.m3u8" "https://p/proxy"
      = "#EXTINF:4.0,\n" ++ ("https://p/proxy" ++ ("/segment?url="
        ++ encodeURIComponent (encryptUrl 0 [1]
            (strBytes "https://origin.example/live/segment001.ts"))))
    ∧ decryptUrl 0 (encryptUrl 0 [1]
          (strBytes "https://origin.example/live/segment001.ts"))
        = Except.ok (strBytes "https://origin.example/live/segment001.ts") :=
  claim_C8_rewrite_segment_example 0 (fun _ => [1]) "https://p/proxy" (by decide)

/-- Witness for C10: a viewer joins a freshly stopped stream; the call
succeeds and the count reaches 1 while the record is inactive. -/
theorem claim_C10_register_ignores_stopped_witness :
    ∃ st2 : AuthState,
      registerViewer
          (stopStream (generateToken initialAuthState 0 [0] "s1" "u" 2 0 7).1 "s1" 500 9).1
          "s1" "sess" 900
        = Except.ok (⟨"sess", "s1", 900, 900⟩, st2)
      ∧ (jsMapGet st2.activeStreams "s1").map (fun d => d.viewerCount) = some 1
      ∧ (jsMapGet st2.activeStreams "s1").map (fun d => d.isActive) = some false := by
  obtain ⟨st2, h1, h2⟩ := claim_C10_register_ignores_stopped
    (stopStream (generateToken initialAuthState 0 [0] "s1" "u" 2 0 7).1 "s1" 500 9).1
    "s1" "sess" 900 _ rfl (by decide)
  refine ⟨st2, h1, ?_, ?_⟩ <;> rw [h2] <;> rfl

end StreamPlatform
